import Mathlib

/-
Verification of the dimmer/diagon change-tracking library.

The development shallowly embeds the library's core data model:
JavaScript values with object identity, the module-level registries
(objectToProxy, the ORIGINAL link of proxies, the modified set), the
DimmerMap tracking view over a Map target (get/set/delete/commitDelta),
the history engine (undoPatch and createReversePatch, Map branch), and
the commitPatches loop of the recording dispatcher.

JavaScript Maps are modelled as insertion-ordered association lists;
object identity is modelled by a natural-number id carried by the obj
constructor, with fresh ids drawn from an allocation counter in Env.
Truthiness follows JavaScript (undefined, null, false, 0 and the empty
string are falsy).
-/

/-- A JavaScript value: primitives, the NO_ENTRY sentinel, or an object
identified by its id. -/
inductive Value where
  | undefinedV
  | vnull
  | vbool (b : Bool)
  | vnum (n : Int)
  | vstr (s : String)
  | noEntry
  | obj (i : Nat)
deriving DecidableEq, Repr

/-- JavaScript truthiness of a value. -/
def truthy : Value → Bool
  | .undefinedV => false
  | .vnull => false
  | .vbool b => b
  | .vnum n => decide (n ≠ 0)
  | .vstr s => decide (s ≠ "")
  | .noEntry => true
  | .obj _ => true

/-- A JavaScript Map: an insertion-ordered list of key-value entries. -/
abbrev JsMap := List (Value × Value)

/-- Map.get: value of the first entry with the given key. -/
def jsGet : JsMap → Value → Option Value
  | [], _ => none
  | (a, b) :: rest, k => if a = k then some b else jsGet rest k

/-- Map.get with JavaScript's undefined for a missing key. -/
def jsGetD (m : JsMap) (k : Value) : Value :=
  (jsGet m k).getD .undefinedV

/-- Map.has. -/
def jsHas (m : JsMap) (k : Value) : Bool :=
  (jsGet m k).isSome

/-- Map.set: replace the value of an existing entry in place, or append
a new entry. -/
def jsSet : JsMap → Value → Value → JsMap
  | [], k, v => [(k, v)]
  | (a, b) :: rest, k, v => if a = k then (a, v) :: rest else (a, b) :: jsSet rest k v

/-- Map.delete: remove the entry with the given key (all occurrences;
maps built by jsSet never hold a key twice). -/
def jsDelete : JsMap → Value → JsMap
  | [], _ => []
  | (a, b) :: rest, k => if a = k then jsDelete rest k else (a, b) :: jsDelete rest k

theorem jsGet_set (m : JsMap) (k v k' : Value) :
    jsGet (jsSet m k v) k' = if k' = k then some v else jsGet m k' := by
  induction m with
  | nil =>
    rcases eq_or_ne k' k with h | h
    · subst h; simp [jsSet, jsGet]
    · simp [jsSet, jsGet, if_neg (Ne.symm h), if_neg h]
  | cons e rest ih =>
    obtain ⟨a, b⟩ := e
    rcases eq_or_ne a k with ha | ha
    · subst ha
      rcases eq_or_ne k' a with h | h
      · subst h; simp [jsSet, jsGet]
      · simp [jsSet, jsGet, if_neg (Ne.symm h), if_neg h]
    · rcases eq_or_ne a k' with h | h
      · subst h
        simp [jsSet, jsGet, if_neg ha, if_neg (Ne.symm ha)]
      · simp [jsSet, jsGet, if_neg ha, if_neg h, ih]

theorem jsGet_delete (m : JsMap) (k k' : Value) :
    jsGet (jsDelete m k) k' = if k' = k then none else jsGet m k' := by
  induction m with
  | nil => simp [jsDelete, jsGet]
  | cons e rest ih =>
    obtain ⟨a, b⟩ := e
    rcases eq_or_ne a k with ha | ha
    · subst ha
      rcases eq_or_ne k' a with h | h
      · subst h; simp [jsDelete, ih]
      · simp [jsDelete, jsGet, ih, if_neg h, if_neg (Ne.symm h)]
    · rcases eq_or_ne a k' with h | h
      · subst h
        simp [jsDelete, jsGet, if_neg ha, if_neg (Ne.symm ha), ih]
      · simp [jsDelete, jsGet, if_neg ha, if_neg h, ih]

theorem jsHas_eq_isSome (m : JsMap) (k : Value) : jsHas m k = (jsGet m k).isSome := rfl

theorem jsGet_eq_some_of_has (m : JsMap) (k : Value) (h : jsHas m k = true) :
    jsGet m k = some (jsGetD m k) := by
  unfold jsHas at h
  cases hg : jsGet m k with
  | none => rw [hg] at h; simp at h
  | some v => simp [jsGetD, hg]

theorem jsGet_mem (m : JsMap) (k v : Value) (h : jsGet m k = some v) : (k, v) ∈ m := by
  induction m with
  | nil => simp [jsGet] at h
  | cons e rest ih =>
    obtain ⟨a, b⟩ := e
    by_cases ha : a = k
    · subst ha
      simp [jsGet] at h
      subst h
      exact List.mem_cons_self _ _
    · simp [jsGet, ha] at h
      exact List.mem_cons_of_mem _ (ih h)

theorem jsHas_exists_mem (m : JsMap) (k : Value) (h : jsHas m k = true) :
    ∃ v, (k, v) ∈ m := by
  unfold jsHas at h
  cases hg : jsGet m k with
  | none => rw [hg] at h; simp at h
  | some v => exact ⟨v, jsGet_mem m k v hg⟩

theorem jsHas_of_mem (m : JsMap) (k v : Value) (h : (k, v) ∈ m) : jsHas m k = true := by
  induction m with
  | nil => simp at h
  | cons e rest ih =>
    obtain ⟨a, b⟩ := e
    rcases List.mem_cons.mp h with h1 | h2
    · have ha : a = k := (Prod.mk.injEq a b k v ▸ h1.symm).1
      simp [jsHas, jsGet, ha]
    · by_cases ha : a = k
      · simp [jsHas, jsGet, ha]
      · simpa [jsHas, jsGet, ha] using ih h2

theorem jsSet_length_of_has (m : JsMap) (k v : Value) (h : jsHas m k = true) :
    (jsSet m k v).length = m.length := by
  induction m with
  | nil => simp [jsHas, jsGet] at h
  | cons e rest ih =>
    obtain ⟨a, b⟩ := e
    by_cases ha : a = k
    · simp [jsSet, ha]
    · simp [jsHas, jsGet, ha] at h
      simp [jsSet, ha, ih h]

theorem mem_jsSet (m : JsMap) (k v : Value) (e : Value × Value) (h : e ∈ jsSet m k v) :
    e ∈ m ∨ e = (k, v) := by
  induction m with
  | nil => simp [jsSet] at h; simp [h]
  | cons p rest ih =>
    obtain ⟨a, b⟩ := p
    by_cases ha : a = k
    · subst ha
      simp [jsSet] at h
      rcases h with h | h
      · right; simp [h]
      · left; exact List.mem_cons_of_mem _ h
    · simp [jsSet, ha] at h
      rcases h with h | h
      · left; simp [h]
      · rcases ih h with h2 | h2
        · left; exact List.mem_cons_of_mem _ h2
        · right; exact h2

/-- Lookup in a WeakMap keyed by object id. -/
def assocGet {A : Type} : List (Nat × A) → Nat → Option A
  | [], _ => none
  | (j, v) :: rest, i => if j = i then some v else assocGet rest i

/-- WeakMap.set keyed by object id: replace in place or append. -/
def assocSet {A : Type} : List (Nat × A) → Nat → A → List (Nat × A)
  | [], i, v => [(i, v)]
  | (j, w) :: rest, i, v => if j = i then (j, v) :: rest else (j, w) :: assocSet rest i v

/-- WeakMap.delete keyed by object id. -/
def assocDelete {A : Type} : List (Nat × A) → Nat → List (Nat × A)
  | [], _ => []
  | (j, w) :: rest, i => if j = i then assocDelete rest i else (j, w) :: assocDelete rest i

theorem assocGet_set (l : List (Nat × Value)) (i : Nat) (v : Value) (i' : Nat) :
    assocGet (assocSet l i v) i' = if i' = i then some v else assocGet l i' := by
  induction l with
  | nil =>
    rcases eq_or_ne i' i with h | h
    · subst h; simp [assocSet, assocGet]
    · simp [assocSet, assocGet, if_neg (Ne.symm h), if_neg h]
  | cons e rest ih =>
    obtain ⟨j, w⟩ := e
    rcases eq_or_ne j i with hj | hj
    · subst hj
      rcases eq_or_ne i' j with h | h
      · subst h; simp [assocSet, assocGet]
      · simp [assocSet, assocGet, if_neg (Ne.symm h), if_neg h]
    · rcases eq_or_ne j i' with h | h
      · subst h
        simp [assocSet, assocGet, if_neg hj, if_neg (Ne.symm hj)]
      · simp [assocSet, assocGet, if_neg hj, if_neg h, ih]

/-- The global mutable environment of the library: the objectToProxy
registry, the ORIGINAL links installed on proxies, the modified set of
the open recording scope, and the id allocator standing in for
JavaScript object allocation. -/
structure Env where
  objectToProxy : List (Nat × Value)
  originalOf : List (Nat × Value)
  modified : List Nat
  nextId : Nat
deriving DecidableEq, Repr

/-- tryGetProxy: objectToProxy.get(obj); undefined for non-objects. -/
def tryGetProxy (env : Env) (v : Value) : Option Value :=
  match v with
  | .obj i => assocGet env.objectToProxy i
  | _ => none

/-- tryGetProxy as the JavaScript value it evaluates to. -/
def tryGetProxyD (env : Env) (v : Value) : Value :=
  (tryGetProxy env v).getD .undefinedV

/-- asOriginal: (obj and obj[ORIGINAL]) or obj. Only proxies carry a
truthy ORIGINAL link; every other value falls through to itself. -/
def asOriginal (env : Env) (v : Value) : Value :=
  match v with
  | .obj i =>
    match assocGet env.originalOf i with
    | some o => if truthy o then o else v
    | none => v
  | _ => v

/-- isProxy: double-negation of obj[ORIGINAL]. -/
def isProxy (env : Env) (v : Value) : Bool :=
  match v with
  | .obj i => truthy ((assocGet env.originalOf i).getD .undefinedV)
  | _ => false

/-- Errors surfaced by the registry layer: wrapping an already tracked
value throws, and a WeakMap or Proxy rejects a primitive. -/
inductive JsError where
  | alreadyTracked
  | notAnObject
deriving DecidableEq, Repr

/-- createRecordingProxy: throws on a value that is already a tracking
view, otherwise allocates a fresh wrapper object carrying an ORIGINAL
link to the target and registers target-to-proxy and proxy-to-proxy in
objectToProxy. The fresh id is drawn above both the allocator and the
target id. -/
def createRecordingProxy (env : Env) (target : Value) : Except JsError (Value × Env) :=
  if isProxy env target then .error .alreadyTracked
  else
    match target with
    | .obj i =>
      let f := max env.nextId (i + 1)
      .ok (.obj f,
        { env with
          objectToProxy := assocSet (assocSet env.objectToProxy i (.obj f)) f (.obj f),
          originalOf := assocSet env.originalOf f target,
          nextId := f + 1 })
    | _ => .error .notAnObject

/-- ensureProxy: tryGetProxy(obj) or createRecordingProxy(obj). -/
def ensureProxy (env : Env) (v : Value) : Except JsError (Value × Env) :=
  match tryGetProxy env v with
  | some p => if truthy p then .ok (p, env) else createRecordingProxy env v
  | none => createRecordingProxy env v

/-- The untracked-value branch of proxify: primitives (and null and
undefined) pass through; objects get a fresh recording proxy. -/
def proxifyFresh (env : Env) (value : Value) : Except JsError (Value × Env) :=
  match value with
  | .obj _ => createRecordingProxy env value
  | _ => .ok (value, env)

/-- proxify: objectToProxy.get(value) or (non-object or falsy: the value
itself; otherwise createRecordingProxy(value)). -/
def proxify (env : Env) (value : Value) : Except JsError (Value × Env) :=
  match tryGetProxy env value with
  | some p => if truthy p then .ok (p, env) else proxifyFresh env value
  | none => proxifyFresh env value

/-- doNotTrack: for a truthy value, registers the value as its own
tracking view; a WeakMap rejects primitive keys. -/
def doNotTrack (env : Env) (v : Value) : Except JsError (Value × Env) :=
  if truthy v then
    match v with
    | .obj i =>
      .ok (v, { env with
                objectToProxy := assocSet env.objectToProxy i v,
                nextId := max env.nextId (i + 1) })
    | _ => .error .notAnObject
  else .ok (v, env)

/-- modified.add: JavaScript Set insertion order. -/
def addModified (l : List Nat) (i : Nat) : List Nat :=
  if l.contains i then l else l ++ [i]

/-- A DimmerMap tracking view: the id of its target object, the current
contents of the underlying target map, and the contents of the Map
superclass, which holds the open patch (the per-key snapshots). -/
structure DimmerMapState where
  targetId : Nat
  target : JsMap
  delta : JsMap
deriving DecidableEq, Repr

/-- getKeyUsedByMap: the key under which the map actually stores the
logical entry for key, trying the tracking view of the key first and
the raw key second; the two conditionals test JavaScript truthiness of
proxyOfKey and the Boolean has results. -/
def getKeyUsedByMap (env : Env) (m : JsMap) (key : Value) : Option Value :=
  let proxyOfKey := tryGetProxyD env key
  if truthy proxyOfKey && jsHas m proxyOfKey then some proxyOfKey
  else if jsHas m (asOriginal env key) then some (asOriginal env key)
  else none

/-- DimmerMap.get before the final proxify: proxyOfKey and
target.get(proxyOfKey) or target.get(asOriginal(key)). -/
def dimmerGetValue (env : Env) (st : DimmerMapState) (key : Value) : Value :=
  let proxyOfKey := tryGetProxyD env key
  let viaProxy := if truthy proxyOfKey then jsGetD st.target proxyOfKey else .undefinedV
  if truthy viaProxy then viaProxy else jsGetD st.target (asOriginal env key)

/-- DimmerMap.get: the resolved value passed through proxify. -/
def dimmerGet (env : Env) (st : DimmerMapState) (key : Value) : Except JsError (Value × Env) :=
  proxify env (dimmerGetValue env st key)

/-- DimmerMap.set: snapshot the resolved key's current value into the
open patch on the first write this scope (NO_ENTRY when the truthiness
test on the resolved key fails), mark the target modified, then write
through to the target under the previously used key when that key is
truthy, else under the supplied key. -/
def dimmerSet (env : Env) (st : DimmerMapState) (key value : Value) : DimmerMapState × Env :=
  let proxyOfKey := tryGetProxyD env key
  let originalKey := asOriginal env key
  let currentKeyUsedByTarget := (getKeyUsedByMap env st.target key).getD .undefinedV
  let recorded := jsHas st.delta originalKey || (truthy proxyOfKey && jsHas st.delta proxyOfKey)
  let delta2 :=
    if recorded then st.delta
    else if truthy currentKeyUsedByTarget then
      jsSet st.delta currentKeyUsedByTarget (jsGetD st.target currentKeyUsedByTarget)
    else jsSet st.delta key .noEntry
  let modified2 := if recorded then env.modified else addModified env.modified st.targetId
  let targetKey := if truthy currentKeyUsedByTarget then currentKeyUsedByTarget else key
  (⟨st.targetId, jsSet st.target targetKey value, delta2⟩, { env with modified := modified2 })

/-- DimmerMap.delete: resolve the stored key; when the resolved key is
truthy, snapshot once per scope and delete it from the target,
returning the target's delete result; otherwise report false without
touching anything. -/
def dimmerDelete (env : Env) (st : DimmerMapState) (key : Value) : Bool × DimmerMapState × Env :=
  let proxyOfKey := tryGetProxyD env key
  let originalKey := asOriginal env key
  let currentKeyUsedByTarget := (getKeyUsedByMap env st.target key).getD .undefinedV
  if truthy currentKeyUsedByTarget then
    let recorded := jsHas st.delta originalKey || (truthy proxyOfKey && jsHas st.delta proxyOfKey)
    let delta2 :=
      if recorded then st.delta
      else jsSet st.delta currentKeyUsedByTarget (jsGetD st.target currentKeyUsedByTarget)
    let modified2 := if recorded then env.modified else addModified env.modified st.targetId
    (jsHas st.target currentKeyUsedByTarget,
      ⟨st.targetId, jsDelete st.target currentKeyUsedByTarget, delta2⟩,
      { env with modified := modified2 })
  else (false, st, env)

/-- DimmerMap.commitDelta: hand out the accumulated patch and clear the
snapshot map. -/
def commitDelta (st : DimmerMapState) : JsMap × DimmerMapState :=
  (st.delta, ⟨st.targetId, st.target, []⟩)

/-- undoPatch, one Map-patch entry: NO_ENTRY deletes the raw patch key;
otherwise the target's currently used key is deleted first when it is
defined and differs from the patch key, and the prior value is stored
under the patch key. -/
def undoMapEntry (env : Env) (t : JsMap) (key priorValue : Value) : JsMap :=
  if priorValue = .noEntry then jsDelete t key
  else
    match getKeyUsedByMap env t key with
    | some targetKey =>
      if targetKey = key then jsSet t key priorValue
      else jsSet (jsDelete t targetKey) key priorValue
    | none => jsSet t key priorValue

/-- undoPatch, Map branch: fold the patch entries in order over the
target. The patch-to-target association is passed explicitly. -/
def undoMapPatch (env : Env) (patch t : JsMap) : JsMap :=
  patch.foldl (fun acc e => undoMapEntry env acc e.1 e.2) t

/-- createReversePatch, Map branch: a fresh patch mapping each key of
the input patch to the target's current raw value at that key, NO_ENTRY
when the raw key is absent. -/
def createReverseMapPatch (patch target : JsMap) : JsMap :=
  patch.foldl
    (fun r e =>
      if !jsHas target e.1 then jsSet r e.1 .noEntry
      else jsSet r e.1 (jsGetD target e.1))
    []

/-- State consumed by commitPatches: the modified set, the DimmerMap
proxies of map targets (target id to open patch contents), and
objectToCurrentPatch for record and array targets. -/
structure CommitState where
  modified : List Nat
  mapProxies : List (Nat × JsMap)
  objectToCurrentPatch : List (Nat × JsMap)
deriving DecidableEq, Repr

/-- The loop of commitPatches: one patch pushed per modified target; a
map or set proxy commits and clears its delta, any other target's
current patch is looked up (undefined when absent) and removed. -/
def commitLoop : List Nat → List (Nat × JsMap) → List (Nat × JsMap) → List (Option JsMap)
  | [], _, _ => []
  | t :: rest, mp, ocp =>
    match assocGet mp t with
    | some d => some d :: commitLoop rest (assocSet mp t []) ocp
    | none => assocGet ocp t :: commitLoop rest mp (assocDelete ocp t)

/-- commitPatches: the batch of patches for the current scope. -/
def commitPatches (s : CommitState) : List (Option JsMap) :=
  commitLoop s.modified s.mapProxies s.objectToCurrentPatch

@[simp] theorem truthy_undefinedV : truthy .undefinedV = false := rfl

@[simp] theorem truthy_noEntry : truthy .noEntry = true := rfl

@[simp] theorem truthy_obj (i : Nat) : truthy (.obj i) = true := rfl

theorem jsGet_none_of_not_has (m : JsMap) (k : Value) (h : jsHas m k = false) :
    jsGet m k = none := by
  unfold jsHas at h
  cases hg : jsGet m k with
  | none => rfl
  | some v => rw [hg] at h; simp at h

/-- The empty environment: fresh registries, no open scope. -/
def envEmpty : Env := ⟨[], [], [], 0⟩

/-- The failing state for the first-write-wins claim: a map holding the
falsy key 0 with value a. -/
def c1St : DimmerMapState := ⟨0, [(.vnum 0, .vstr "a")], []⟩

def c1Step1 : DimmerMapState × Env := dimmerSet envEmpty c1St (.vnum 0) (.vstr "b")

def c1Step2 : DimmerMapState × Env := dimmerSet c1Step1.2 c1Step1.1 (.vnum 0) (.vstr "c")

def c1Patch : JsMap := (commitDelta c1Step2.1).1

/-- C1 (code bug, evaluated at the failing input): for the dictionary
holding 0 with prior value a, the scope set(0, b); set(0, c) commits a
patch mapping 0 to NO_ENTRY instead of the prior value a, because set
tests JavaScript truthiness of the resolved stored key and the present
key 0 is falsy; reads still see the final value c. The claim (and the
spec's first-write-wins rule, which snapshots the current value of a
present key) is the evident intent: the prior value a is lost and an
undo of this patch would delete the key instead of restoring a. -/
theorem firstWriteWins_falsyKeyBug :
    jsGet c1Patch (.vnum 0) = some .noEntry
    ∧ jsGet c1Patch (.vnum 0) ≠ some (.vstr "a")
    ∧ dimmerGetValue c1Step2.2 c1Step2.1 (.vnum 0) = .vstr "c" := by
  refine ⟨by decide, by decide, by decide⟩

/-- The failing state for the delete claim: a map holding the falsy key
0 with value a. -/
def c7St : DimmerMapState := ⟨0, [(.vnum 0, .vstr "a")], []⟩

/-- C7 (code bug, evaluated at the failing input): key 0 resolves to an
entry of the underlying map (getKeyUsedByMap returns it and has is
true), yet delete(0) returns false and leaves the target, the open
patch and the modified set untouched, because delete tests JavaScript
truthiness of the resolved stored key and 0 is falsy. The claim (and
the spec: if the key is absent return false, otherwise snapshot once
and remove) is the evident intent; the code cannot delete a present
falsy key at all. -/
theorem deleteFalsyKeyBug :
    jsHas c7St.target (.vnum 0) = true
    ∧ getKeyUsedByMap envEmpty c7St.target (.vnum 0) = some (.vnum 0)
    ∧ dimmerDelete envEmpty c7St (.vnum 0) = (false, c7St, envEmpty) := by
  refine ⟨by decide, by decide, by decide⟩

theorem commitLoop_length (l : List Nat) :
    ∀ mp ocp, (commitLoop l mp ocp).length = l.length := by
  induction l with
  | nil => intro mp ocp; simp [commitLoop]
  | cons t rest ih =>
    intro mp ocp
    cases h : assocGet mp t <;> simp [commitLoop, h, ih]

/-- C8: commitPatches always returns a list of patches with exactly one
entry per container in the modified set; in particular a scope with no
modifications commits the empty batch, never a null or absent one. -/
theorem commitPatches_oneBatchPerTarget (s : CommitState) :
    (commitPatches s).length = s.modified.length
    ∧ commitPatches ⟨[], s.mapProxies, s.objectToCurrentPatch⟩ = [] :=
  ⟨commitLoop_length s.modified s.mapProxies s.objectToCurrentPatch, rfl⟩

/-- C2: when a dictionary holds an entry under container key c whose
tracking view is p (registry maps c to p and p to itself, the ORIGINAL
of p is c), get through either p or c reads the same underlying entry
and returns the same value, and set through p updates the existing
entry keyed by c in place: no second entry is created and the size is
unchanged. -/
theorem mapAliasResolution (env : Env) (st : DimmerMapState) (c p v : Value)
    (hc : tryGetProxy env c = some p)
    (hp : tryGetProxy env p = some p)
    (hoc : asOriginal env c = c)
    (hop : asOriginal env p = c)
    (hpt : truthy p = true)
    (hct : truthy c = true)
    (ht : jsHas st.target c = true)
    (htp : jsHas st.target p = false) :
    dimmerGetValue env st p = dimmerGetValue env st c
    ∧ dimmerGet env st p = dimmerGet env st c
    ∧ (dimmerSet env st p v).1.target = jsSet st.target c v
    ∧ jsHas (dimmerSet env st p v).1.target p = false
    ∧ (dimmerSet env st p v).1.target.length = st.target.length := by
  have hne : p ≠ c := by
    intro h
    rw [h, ht] at htp
    exact Bool.noConfusion htp
  have hgp : jsGet st.target p = none := jsGet_none_of_not_has st.target p htp
  have hval : dimmerGetValue env st p = jsGetD st.target c := by
    simp [dimmerGetValue, tryGetProxyD, hp, hpt, jsGetD, hgp, hop]
  have hvalc : dimmerGetValue env st c = jsGetD st.target c := by
    simp [dimmerGetValue, tryGetProxyD, hc, hpt, jsGetD, hgp, hoc]
  have hkey : getKeyUsedByMap env st.target p = some c := by
    simp [getKeyUsedByMap, tryGetProxyD, hp, hpt, htp, hop, ht]
  have hset : (dimmerSet env st p v).1.target = jsSet st.target c v := by
    simp [dimmerSet, hkey, hct]
  refine ⟨hval.trans hvalc.symm, ?_, hset, ?_, ?_⟩
  · unfold dimmerGet
    rw [hval, hvalc]
  · rw [hset]
    simp [jsHas, jsGet_set, if_neg hne, hgp]
  · rw [hset]
    exact jsSet_length_of_has st.target c v ht

/-- Concrete aliasing environment: container obj 0 has tracking view
obj 1; the view is registered to itself and carries the ORIGINAL link. -/
def c2Env : Env := ⟨[(0, .obj 1), (1, .obj 1)], [(1, .obj 0)], [], 2⟩

def c2St : DimmerMapState := ⟨5, [(.obj 0, .vstr "x")], []⟩

/-- C2 witness: the aliasing theorem applied to a concrete dictionary
holding one entry keyed by container obj 0 with tracking view obj 1. -/
theorem mapAliasResolution_witness :
    (tryGetProxy c2Env (.obj 0) = some (.obj 1)
     ∧ tryGetProxy c2Env (.obj 1) = some (.obj 1)
     ∧ asOriginal c2Env (.obj 0) = .obj 0
     ∧ asOriginal c2Env (.obj 1) = .obj 0
     ∧ truthy (.obj 1) = true
     ∧ truthy (.obj 0) = true
     ∧ jsHas c2St.target (.obj 0) = true
     ∧ jsHas c2St.target (.obj 1) = false)
    ∧ (dimmerGetValue c2Env c2St (.obj 1) = dimmerGetValue c2Env c2St (.obj 0)
       ∧ dimmerGet c2Env c2St (.obj 1) = dimmerGet c2Env c2St (.obj 0)
       ∧ (dimmerSet c2Env c2St (.obj 1) (.vnum 7)).1.target = jsSet c2St.target (.obj 0) (.vnum 7)
       ∧ jsHas (dimmerSet c2Env c2St (.obj 1) (.vnum 7)).1.target (.obj 1) = false
       ∧ (dimmerSet c2Env c2St (.obj 1) (.vnum 7)).1.target.length = c2St.target.length) :=
  ⟨by decide,
   mapAliasResolution c2Env c2St (.obj 0) (.obj 1) (.vnum 7) (by decide) (by decide)
     (by decide) (by decide) (by decide) (by decide) (by decide) (by decide)⟩

/-- C6: createRecordingProxy on a value that is already a tracking view
throws AlreadyTrackedError; nothing catches it, so the unregistered
paths of ensureProxy and proxify surface the same error to the caller. -/
theorem createRecordingProxy_alreadyTracked (env : Env) (v : Value)
    (h : isProxy env v = true) :
    createRecordingProxy env v = .error .alreadyTracked
    ∧ (tryGetProxy env v = none →
        ensureProxy env v = .error .alreadyTracked
        ∧ proxify env v = .error .alreadyTracked) := by
  have hcreate : createRecordingProxy env v = .error .alreadyTracked := by
    simp [createRecordingProxy, h]
  refine ⟨hcreate, fun hn => ⟨?_, ?_⟩⟩
  · simp [ensureProxy, hn, hcreate]
  · obtain ⟨i, rfl⟩ : ∃ i, v = .obj i := by
      cases v with
      | obj i => exact ⟨i, rfl⟩
      | undefinedV => simp [isProxy] at h
      | vnull => simp [isProxy] at h
      | vbool b => simp [isProxy] at h
      | vnum n => simp [isProxy] at h
      | vstr s => simp [isProxy] at h
      | noEntry => simp [isProxy] at h
    simp [proxify, hn, proxifyFresh, hcreate]

/-- A value obj 1 that is a tracking view (ORIGINAL link to obj 0) but
is absent from the objectToProxy registry. -/
def c6Env : Env := ⟨[], [(1, .obj 0)], [], 2⟩

/-- C6 witness: wrapping the concrete tracking view obj 1 throws
AlreadyTrackedError from createRecordingProxy, ensureProxy and proxify. -/
theorem createRecordingProxy_alreadyTracked_witness :
    isProxy c6Env (.obj 1) = true
    ∧ (createRecordingProxy c6Env (.obj 1) = .error .alreadyTracked
       ∧ (tryGetProxy c6Env (.obj 1) = none →
           ensureProxy c6Env (.obj 1) = .error .alreadyTracked
           ∧ proxify c6Env (.obj 1) = .error .alreadyTracked)) :=
  ⟨by decide, createRecordingProxy_alreadyTracked c6Env (.obj 1) (by decide)⟩

/-- C9: when the underlying map stores a falsy value w under the
tracking view of key k, get(k) does not return w: the truthiness test
on the looked-up value fails, so get falls back to the raw key
asOriginal(k) and returns whatever is stored there, or undefined when
the raw key is absent. -/
theorem dimmerGet_falsyProxyValue_fallback (env : Env) (st : DimmerMapState) (k pk w : Value)
    (h1 : tryGetProxy env k = some pk)
    (h2 : truthy pk = true)
    (h3 : jsGet st.target pk = some w)
    (h4 : truthy w = false) :
    dimmerGetValue env st k = jsGetD st.target (asOriginal env k)
    ∧ (jsHas st.target (asOriginal env k) = false →
        dimmerGet env st k = .ok (.undefinedV, env)) := by
  have hval : dimmerGetValue env st k = jsGetD st.target (asOriginal env k) := by
    simp [dimmerGetValue, tryGetProxyD, h1, h2, jsGetD, h3, h4]
  refine ⟨hval, fun h5 => ?_⟩
  have hnone : jsGet st.target (asOriginal env k) = none :=
    jsGet_none_of_not_has st.target (asOriginal env k) h5
  unfold dimmerGet
  rw [hval]
  simp [jsGetD, hnone, proxify, tryGetProxy, proxifyFresh]

/-- Concrete falsy-value aliasing environment: key obj 0 has tracking
view obj 1; the target stores the falsy value 0 under the view obj 1
and the string raw under the raw key obj 0. -/
def c9Env : Env := ⟨[(0, .obj 1), (1, .obj 1)], [(1, .obj 0)], [], 2⟩

def c9St : DimmerMapState := ⟨5, [(.obj 1, .vnum 0), (.obj 0, .vstr "raw")], []⟩

/-- C9 witness: the fallback theorem applied to the concrete map whose
entry under the tracking view holds the falsy value 0. -/
theorem dimmerGet_falsyProxyValue_fallback_witness :
    (tryGetProxy c9Env (.obj 0) = some (.obj 1)
     ∧ truthy (.obj 1) = true
     ∧ jsGet c9St.target (.obj 1) = some (.vnum 0)
     ∧ truthy (.vnum 0) = false)
    ∧ (dimmerGetValue c9Env c9St (.obj 0) = jsGetD c9St.target (asOriginal c9Env (.obj 0))
       ∧ (jsHas c9St.target (asOriginal c9Env (.obj 0)) = false →
           dimmerGet c9Env c9St (.obj 0) = .ok (.undefinedV, c9Env))) :=
  ⟨by decide,
   dimmerGet_falsyProxyValue_fallback c9Env c9St (.obj 0) (.obj 1) (.vnum 0)
     (by decide) (by decide) (by decide) (by decide)⟩

theorem tryGetProxy_after_create (env : Env) (x p : Value) (env2 : Env)
    (h : createRecordingProxy env x = .ok (p, env2)) :
    tryGetProxy env2 p = some p ∧ truthy p = true := by
  unfold createRecordingProxy at h
  by_cases hp : isProxy env x = true
  · rw [if_pos hp] at h
    exact absurd h (by simp)
  · rw [if_neg hp] at h
    cases x with
    | obj i =>
      simp only [Except.ok.injEq, Prod.mk.injEq] at h
      obtain ⟨h1, h2⟩ := h
      subst h1
      subst h2
      simp [tryGetProxy, assocGet_set]
    | undefinedV => simp at h
    | vnull => simp at h
    | vbool b => simp at h
    | vnum n => simp at h
    | vstr s => simp at h
    | noEntry => simp at h

/-- C5: ensureProxy is idempotent. In any environment whose registry is
self-registered (every registered tracking view is registered to
itself, an invariant maintained by createRecordingProxy and
doNotTrack), if ensureProxy(x) succeeds with view p and environment
env2, then ensureProxy on p in env2 returns the same p without touching
the environment, and looking up the tracking view of the tracking view
p returns p itself. -/
theorem ensureProxy_idempotent (env : Env) (x p : Value) (env2 : Env)
    (hreg : ∀ v q, tryGetProxy env v = some q → tryGetProxy env q = some q)
    (h : ensureProxy env x = .ok (p, env2)) :
    ensureProxy env2 p = .ok (p, env2) ∧ tryGetProxy env2 p = some p := by
  have key : tryGetProxy env2 p = some p ∧ truthy p = true := by
    unfold ensureProxy at h
    cases hx : tryGetProxy env x with
    | some q =>
      rw [hx] at h
      dsimp only at h
      by_cases hq : truthy q = true
      · rw [if_pos hq] at h
        simp only [Except.ok.injEq, Prod.mk.injEq] at h
        obtain ⟨h1, h2⟩ := h
        subst h1
        subst h2
        exact ⟨hreg _ _ hx, hq⟩
      · rw [if_neg hq] at h
        exact tryGetProxy_after_create env x p env2 h
    | none =>
      rw [hx] at h
      dsimp only at h
      exact tryGetProxy_after_create env x p env2 h
  refine ⟨?_, key.1⟩
  simp [ensureProxy, key.1, key.2]

/-- The environment produced by ensureProxy on obj 0 starting from the
empty environment: the fresh view obj 1 is registered for obj 0 and for
itself and carries the ORIGINAL link back to obj 0. -/
def c5Env2 : Env := ⟨[(0, .obj 1), (1, .obj 1)], [(1, .obj 0)], [], 2⟩

/-- C5 witness: idempotence applied to the concrete container obj 0 in
the empty environment. -/
theorem ensureProxy_idempotent_witness :
    ensureProxy envEmpty (.obj 0) = .ok (.obj 1, c5Env2)
    ∧ (ensureProxy c5Env2 (.obj 1) = .ok (.obj 1, c5Env2)
       ∧ tryGetProxy c5Env2 (.obj 1) = some (.obj 1)) := by
  have hreg : ∀ v q, tryGetProxy envEmpty v = some q → tryGetProxy envEmpty q = some q := by
    intro v q h
    cases v <;> simp [tryGetProxy, envEmpty, assocGet] at h
  exact ⟨rfl, ensureProxy_idempotent envEmpty (.obj 0) (.obj 1) c5Env2 hreg rfl⟩

/-- The undo step as the spec words it, for comparison with the source:
a NO_ENTRY prior value deletes the key resolved by the
tracking-view-first key resolution (getKeyUsedByMap), not the raw patch
key; the other branch matches the source. -/
def specUndoMapEntry (env : Env) (t : JsMap) (key priorValue : Value) : JsMap :=
  if priorValue = .noEntry then
    match getKeyUsedByMap env t key with
    | some targetKey => jsDelete t targetKey
    | none => t
  else
    match getKeyUsedByMap env t key with
    | some targetKey =>
      if targetKey = key then jsSet t key priorValue
      else jsSet (jsDelete t targetKey) key priorValue
    | none => jsSet t key priorValue

/-- Aliasing environment for the undo claim: key obj 0 has tracking
view obj 1. -/
def c4Env : Env := ⟨[(0, .obj 1), (1, .obj 1)], [(1, .obj 0)], [], 2⟩

/-- A target that stores the logical entry under the tracking view
obj 1 of the patch key obj 0. -/
def c4T : JsMap := [(.obj 1, .vstr "w")]

/-- C4 counterexample: for the patch entry (obj 0, NO_ENTRY) against a
target storing the entry under the tracking view obj 1, key resolution
finds obj 1, but undoPatch deletes only the raw patch key obj 0 and
leaves the target unchanged, with the entry still present; the
spec-worded resolution-based delete would have emptied the target. So
the NO_ENTRY branch does not use the tracking-view-first key
resolution. -/
theorem undoNoEntryResolution_cex :
    getKeyUsedByMap c4Env c4T (.obj 0) = some (.obj 1)
    ∧ undoMapPatch c4Env [(.obj 0, .noEntry)] c4T = c4T
    ∧ jsHas (undoMapPatch c4Env [(.obj 0, .noEntry)] c4T) (.obj 1) = true
    ∧ undoMapEntry c4Env c4T (.obj 0) .noEntry ≠ specUndoMapEntry c4Env c4T (.obj 0) .noEntry
    ∧ specUndoMapEntry c4Env c4T (.obj 0) .noEntry = [] := by
  refine ⟨by decide, by decide, by decide, by decide, by decide⟩

/-- C4 (amended): the exact observable behaviour of one undoPatch map
step. A NO_ENTRY prior value removes the raw patch key only (no key
resolution). Otherwise the patch key ends up mapped to the prior value;
the key currently used by the target, when it resolves and differs from
the patch key, is removed; every other key is untouched. -/
theorem undoMapEntry_characterization (env : Env) (t : JsMap) (k v k' : Value) :
    jsGet (undoMapEntry env t k v) k' =
      if v = .noEntry then (if k' = k then none else jsGet t k')
      else if k' = k then some v
      else if getKeyUsedByMap env t k = some k' then none
      else jsGet t k' := by
  by_cases hv : v = .noEntry
  · simp [undoMapEntry, hv, jsGet_delete]
  · rw [undoMapEntry, if_neg hv, if_neg hv]
    cases hk : getKeyUsedByMap env t k with
    | none =>
      simp only [jsGet_set]
      by_cases h' : k' = k
      · simp [h']
      · simp [h']
    | some u =>
      dsimp only
      by_cases hu : u = k
      · subst hu
        rw [if_pos rfl]
        simp only [jsGet_set]
        by_cases h' : k' = u
        · simp [h']
        · have : ¬(some u = some k') := by
            intro hh
            exact h' (Option.some.injEq u k' ▸ hh).symm
          simp [h', this]
      · rw [if_neg hu]
        simp only [jsGet_set, jsGet_delete]
        by_cases h' : k' = k
        · simp [h']
        · by_cases h2 : k' = u
          · subst h2
            simp [h']
          · have : ¬(some u = some k') := by
              intro hh
              exact h2 (Option.some.injEq u k' ▸ hh).symm
            simp [h', h2, this]

/-- Well-formed allocator: every key registered in objectToProxy lies
below the next fresh id. -/
def EnvWf (env : Env) : Bool :=
  env.objectToProxy.all (fun e => decide (e.1 < env.nextId))

theorem allLt_mono (l : List (Nat × Value)) (n m : Nat)
    (h : l.all (fun e => decide (e.1 < n)) = true) (hnm : n ≤ m) :
    l.all (fun e => decide (e.1 < m)) = true := by
  induction l with
  | nil => simp
  | cons e rest ih =>
    simp only [List.all_cons, Bool.and_eq_true, decide_eq_true_eq] at h ⊢
    exact ⟨lt_of_lt_of_le h.1 hnm, ih h.2⟩

theorem allLt_assocSet (l : List (Nat × Value)) (j : Nat) (v : Value) (n : Nat)
    (h : l.all (fun e => decide (e.1 < n)) = true) (hj : j < n) :
    (assocSet l j v).all (fun e => decide (e.1 < n)) = true := by
  induction l with
  | nil => simp [assocSet, hj]
  | cons e rest ih =>
    obtain ⟨a, w⟩ := e
    simp only [List.all_cons, Bool.and_eq_true, decide_eq_true_eq] at h
    by_cases ha : a = j
    · simp only [assocSet, if_pos ha, List.all_cons, Bool.and_eq_true, decide_eq_true_eq]
      exact ⟨h.1, h.2⟩
    · simp only [assocSet, if_neg ha, List.all_cons, Bool.and_eq_true, decide_eq_true_eq]
      exact ⟨h.1, ih h.2⟩

theorem assocGet_lt_of_all (l : List (Nat × Value)) (n i : Nat) (w : Value)
    (hall : l.all (fun e => decide (e.1 < n)) = true)
    (h : assocGet l i = some w) : i < n := by
  induction l with
  | nil => simp [assocGet] at h
  | cons e rest ih =>
    obtain ⟨a, v⟩ := e
    simp only [List.all_cons, Bool.and_eq_true, decide_eq_true_eq] at hall
    by_cases ha : a = i
    · exact ha ▸ hall.1
    · simp only [assocGet, if_neg ha] at h
      exact ih hall.2 h

/-- One call of the registry surface exercised after doNotTrack. -/
inductive Op where
  | proxifyOp (v : Value)
  | ensureOp (v : Value)
  | doNotTrackOp (v : Value)

/-- The environment a call leaves behind: the one inside a successful
result; a thrown error leaves the registries untouched. -/
def afterEnv (env : Env) (r : Except JsError (Value × Env)) : Env :=
  match r with
  | .ok pe => pe.2
  | .error _ => env

/-- The environment left behind by one surface call. -/
def opEffect (env : Env) (op : Op) : Env :=
  match op with
  | .proxifyOp v => afterEnv env (proxify env v)
  | .ensureOp v => afterEnv env (ensureProxy env v)
  | .doNotTrackOp v => afterEnv env (doNotTrack env v)

/-- The environment after a sequence of surface calls. -/
def runOps (env : Env) (ops : List Op) : Env :=
  ops.foldl opEffect env

theorem create_preserves (env : Env) (v p : Value) (env2 : Env) (i : Nat)
    (hwf : EnvWf env = true)
    (hx : tryGetProxy env (.obj i) = some (.obj i))
    (hv : ∀ q, tryGetProxy env v = some q → truthy q = false)
    (h : createRecordingProxy env v = .ok (p, env2)) :
    EnvWf env2 = true ∧ tryGetProxy env2 (.obj i) = some (.obj i) := by
  unfold createRecordingProxy at h
  by_cases hpr : isProxy env v = true
  · rw [if_pos hpr] at h
    exact absurd h (by simp)
  · rw [if_neg hpr] at h
    cases v with
    | obj j =>
      simp only [Except.ok.injEq, Prod.mk.injEq] at h
      obtain ⟨h1, h2⟩ := h
      subst h1
      subst h2
      have hi : i < env.nextId :=
        assocGet_lt_of_all env.objectToProxy env.nextId i (.obj i) hwf hx
      have hji : j ≠ i := by
        intro hj
        subst hj
        exact absurd (hv (.obj j) hx) (by simp)
      have hif : i < max env.nextId (j + 1) :=
        lt_of_lt_of_le hi (le_max_left _ _)
      constructor
      · unfold EnvWf
        simp only
        have hstep1 : env.objectToProxy.all
            (fun e => decide (e.1 < max env.nextId (j + 1) + 1)) = true :=
          allLt_mono env.objectToProxy env.nextId _ hwf
            (le_trans (le_max_left _ _) (Nat.le_succ _))
        have hstep2 := allLt_assocSet env.objectToProxy j
          (.obj (max env.nextId (j + 1))) (max env.nextId (j + 1) + 1) hstep1
          (lt_of_lt_of_le (Nat.lt_succ_self j)
            (le_trans (le_max_right _ _) (Nat.le_succ _)))
        exact allLt_assocSet _ (max env.nextId (j + 1))
          (.obj (max env.nextId (j + 1))) _ hstep2 (Nat.lt_succ_self _)
      · unfold tryGetProxy
        simp only
        rw [assocGet_set, if_neg (Nat.ne_of_lt hif), assocGet_set, if_neg hji.symm]
        exact hx
    | undefinedV => simp at h
    | vnull => simp at h
    | vbool b => simp at h
    | vnum n => simp at h
    | vstr s => simp at h
    | noEntry => simp at h

theorem opEffect_preserves (env : Env) (i : Nat) (op : Op)
    (hwf : EnvWf env = true)
    (hx : tryGetProxy env (.obj i) = some (.obj i)) :
    EnvWf (opEffect env op) = true
    ∧ tryGetProxy (opEffect env op) (.obj i) = some (.obj i) := by
  cases op with
  | proxifyOp v =>
    unfold opEffect
    dsimp only
    cases hres : proxify env v with
    | error e => exact ⟨hwf, hx⟩
    | ok pe =>
      dsimp only [afterEnv]
      unfold proxify at hres
      cases hl : tryGetProxy env v with
      | some q =>
        rw [hl] at hres
        dsimp only at hres
        by_cases hq : truthy q = true
        · rw [if_pos hq] at hres
          simp only [Except.ok.injEq] at hres
          rw [← hres]
          exact ⟨hwf, hx⟩
        · rw [if_neg hq] at hres
          unfold proxifyFresh at hres
          cases v with
          | obj j =>
            exact create_preserves env (.obj j) pe.1 pe.2 i hwf hx
              (fun q2 hq2 => by
                rw [hl] at hq2
                cases hq2
                exact Bool.eq_false_iff.mpr hq) hres
          | undefinedV => simp [tryGetProxy] at hl
          | vnull => simp [tryGetProxy] at hl
          | vbool b => simp [tryGetProxy] at hl
          | vnum n => simp [tryGetProxy] at hl
          | vstr s => simp [tryGetProxy] at hl
          | noEntry => simp [tryGetProxy] at hl
      | none =>
        rw [hl] at hres
        dsimp only at hres
        unfold proxifyFresh at hres
        cases v with
        | obj j =>
          exact create_preserves env (.obj j) pe.1 pe.2 i hwf hx
            (fun q2 hq2 => by rw [hl] at hq2; exact Option.noConfusion hq2) hres
        | undefinedV =>
          simp only [Except.ok.injEq] at hres
          rw [← hres]
          exact ⟨hwf, hx⟩
        | vnull =>
          simp only [Except.ok.injEq] at hres
          rw [← hres]
          exact ⟨hwf, hx⟩
        | vbool b =>
          simp only [Except.ok.injEq] at hres
          rw [← hres]
          exact ⟨hwf, hx⟩
        | vnum n =>
          simp only [Except.ok.injEq] at hres
          rw [← hres]
          exact ⟨hwf, hx⟩
        | vstr s =>
          simp only [Except.ok.injEq] at hres
          rw [← hres]
          exact ⟨hwf, hx⟩
        | noEntry =>
          simp only [Except.ok.injEq] at hres
          rw [← hres]
          exact ⟨hwf, hx⟩
  | ensureOp v =>
    unfold opEffect
    dsimp only
    cases hres : ensureProxy env v with
    | error e => exact ⟨hwf, hx⟩
    | ok pe =>
      dsimp only [afterEnv]
      unfold ensureProxy at hres
      cases hl : tryGetProxy env v with
      | some q =>
        rw [hl] at hres
        dsimp only at hres
        by_cases hq : truthy q = true
        · rw [if_pos hq] at hres
          simp only [Except.ok.injEq] at hres
          rw [← hres]
          exact ⟨hwf, hx⟩
        · rw [if_neg hq] at hres
          exact create_preserves env v pe.1 pe.2 i hwf hx
            (fun q2 hq2 => by
              rw [hl] at hq2
              cases hq2
              exact Bool.eq_false_iff.mpr hq) hres
      | none =>
        rw [hl] at hres
        dsimp only at hres
        exact create_preserves env v pe.1 pe.2 i hwf hx
          (fun q2 hq2 => by rw [hl] at hq2; exact Option.noConfusion hq2) hres
  | doNotTrackOp v =>
    unfold opEffect
    dsimp only
    cases hres : doNotTrack env v with
    | error e => exact ⟨hwf, hx⟩
    | ok pe =>
      dsimp only [afterEnv]
      unfold doNotTrack at hres
      by_cases hv : truthy v = true
      · rw [if_pos hv] at hres
        cases v with
        | obj j =>
          simp only [Except.ok.injEq] at hres
          rw [← hres]
          constructor
          · unfold EnvWf
            simp only
            exact allLt_assocSet env.objectToProxy j (.obj j) (max env.nextId (j + 1))
              (allLt_mono env.objectToProxy env.nextId _ hwf (le_max_left _ _))
              (lt_of_lt_of_le (Nat.lt_succ_self j) (le_max_right _ _))
          · unfold tryGetProxy
            simp only
            rw [assocGet_set]
            by_cases hj : i = j
            · rw [if_pos hj, hj]
            · rw [if_neg hj]
              exact hx
        | undefinedV => simp at hres
        | vnull => simp at hres
        | vbool b => exact absurd hres (by simp)
        | vnum n => simp at hres
        | vstr s => simp at hres
        | noEntry => simp at hres
      · rw [if_neg hv] at hres
        simp only [Except.ok.injEq] at hres
        rw [← hres]
        exact ⟨hwf, hx⟩

theorem runOps_preserves (ops : List Op) :
    ∀ env i, EnvWf env = true → tryGetProxy env (.obj i) = some (.obj i) →
      EnvWf (runOps env ops) = true
      ∧ tryGetProxy (runOps env ops) (.obj i) = some (.obj i) := by
  induction ops with
  | nil => intro env i hwf hx; exact ⟨hwf, hx⟩
  | cons op rest ih =>
    intro env i hwf hx
    have hstep := opEffect_preserves env i op hwf hx
    exact ih (opEffect env op) i hstep.1 hstep.2

/-- C10 counterexample: 0 is a non-null value, and the call
doNotTrack(0) succeeds, yet afterwards the registry does not map 0 to
itself (the truthy guard skips falsy values entirely), so the claim
fails as stated for non-object values. -/
theorem doNotTrack_nonNull_cex :
    doNotTrack envEmpty (.vnum 0) = .ok (.vnum 0, envEmpty)
    ∧ tryGetProxy envEmpty (.vnum 0) ≠ some (.vnum 0) :=
  ⟨rfl, by decide⟩

/-- C10 (amended to containers): after doNotTrack(x) for a container x
in a well-formed environment, the registry maps x to itself, proxify
and ensureProxy return x with the environment unchanged, and no
sequence of later proxify, ensureProxy or doNotTrack calls ever
installs a tracking view for x: the registry keeps mapping x to
itself. -/
theorem doNotTrack_container (env : Env) (i : Nat) (env1 : Env)
    (hwf : EnvWf env = true)
    (h : doNotTrack env (.obj i) = .ok (.obj i, env1)) :
    tryGetProxy env1 (.obj i) = some (.obj i)
    ∧ EnvWf env1 = true
    ∧ proxify env1 (.obj i) = .ok (.obj i, env1)
    ∧ ensureProxy env1 (.obj i) = .ok (.obj i, env1)
    ∧ ∀ ops : List Op, tryGetProxy (runOps env1 ops) (.obj i) = some (.obj i) := by
  unfold doNotTrack at h
  rw [if_pos (by simp : truthy (Value.obj i) = true)] at h
  simp only [Except.ok.injEq, Prod.mk.injEq, true_and] at h
  subst h
  have hlook : tryGetProxy
      { env with
        objectToProxy := assocSet env.objectToProxy i (.obj i),
        nextId := max env.nextId (i + 1) } (.obj i) = some (.obj i) := by
    unfold tryGetProxy
    simp only
    rw [assocGet_set, if_pos rfl]
  have hwf1 : EnvWf
      { env with
        objectToProxy := assocSet env.objectToProxy i (.obj i),
        nextId := max env.nextId (i + 1) } = true := by
    unfold EnvWf
    simp only
    exact allLt_assocSet env.objectToProxy i (.obj i) (max env.nextId (i + 1))
      (allLt_mono env.objectToProxy env.nextId _ hwf (le_max_left _ _))
      (lt_of_lt_of_le (Nat.lt_succ_self i) (le_max_right _ _))
  refine ⟨hlook, hwf1, ?_, ?_, ?_⟩
  · unfold proxify
    rw [hlook]
    simp
  · unfold ensureProxy
    rw [hlook]
    simp
  · intro ops
    exact (runOps_preserves ops _ i hwf1 hlook).2

/-- The environment after doNotTrack(obj 0) in the empty environment. -/
def c10Env1 : Env := ⟨[(0, .obj 0)], [], [], 1⟩

/-- C10 witness: the amended theorem applied to the concrete container
obj 0 in the empty environment, with the registry entry checked after a
concrete sequence of later surface calls. -/
theorem doNotTrack_container_witness :
    EnvWf envEmpty = true
    ∧ doNotTrack envEmpty (.obj 0) = .ok (.obj 0, c10Env1)
    ∧ tryGetProxy c10Env1 (.obj 0) = some (.obj 0)
    ∧ EnvWf c10Env1 = true
    ∧ proxify c10Env1 (.obj 0) = .ok (.obj 0, c10Env1)
    ∧ ensureProxy c10Env1 (.obj 0) = .ok (.obj 0, c10Env1)
    ∧ tryGetProxy
        (runOps c10Env1 [.proxifyOp (.obj 3), .ensureOp (.vstr "s"), .doNotTrackOp (.obj 0)])
        (.obj 0) = some (.obj 0) := by
  have happ := doNotTrack_container envEmpty 0 c10Env1 (by decide) rfl
  exact ⟨by decide, rfl, happ.1, happ.2.1, happ.2.2.1, happ.2.2.2.1,
    happ.2.2.2.2 [.proxifyOp (.obj 3), .ensureOp (.vstr "s"), .doNotTrackOp (.obj 0)]⟩

/-- The target's current value at a key as createReversePatch records
it: the raw stored value, or NO_ENTRY when the raw key is absent. -/
def origVal (t : JsMap) (k : Value) : Value :=
  if jsHas t k then jsGetD t k else .noEntry

theorem jsHas_cons (a b : Value) (m : JsMap) (k : Value) :
    jsHas ((a, b) :: m) k = if a = k then true else jsHas m k := by
  by_cases h : a = k
  · simp [jsHas, jsGet, h]
  · unfold jsHas
    rw [show jsGet ((a, b) :: m) k = if a = k then some b else jsGet m k from rfl, if_neg h,
      if_neg h]

theorem createReverseMapPatch_eq (p t : JsMap) :
    createReverseMapPatch p t = p.foldl (fun r e => jsSet r e.1 (origVal t e.1)) [] := by
  unfold createReverseMapPatch origVal
  congr 1
  funext r e
  by_cases h : jsHas t e.1 <;> simp [h]

theorem foldSet_get (t : JsMap) (p : JsMap) :
    ∀ (r : JsMap) (k : Value),
      jsGet (p.foldl (fun r e => jsSet r e.1 (origVal t e.1)) r) k
        = if jsHas p k then some (origVal t k) else jsGet r k := by
  induction p with
  | nil =>
    intro r k
    simp [jsHas, jsGet]
  | cons e rest ih =>
    intro r k
    obtain ⟨a, b⟩ := e
    rw [List.foldl_cons, ih, jsHas_cons]
    by_cases hak : a = k
    · subst hak
      by_cases hrest : jsHas rest a = true
      · simp [hrest]
      · simp only [Bool.not_eq_true] at hrest
        simp [hrest, jsGet_set]
    · by_cases hrest : jsHas rest k = true
      · simp [hrest, hak]
      · simp only [Bool.not_eq_true] at hrest
        simp [hrest, hak, jsGet_set, Ne.symm hak]

theorem jsGet_createReverseMapPatch (p t : JsMap) (k : Value) :
    jsGet (createReverseMapPatch p t) k
      = if jsHas p k then some (origVal t k) else none := by
  rw [createReverseMapPatch_eq, foldSet_get]
  by_cases h : jsHas p k = true <;> simp [h, jsGet]

theorem jsHas_createReverseMapPatch (p t : JsMap) (k : Value) :
    jsHas (createReverseMapPatch p t) k = jsHas p k := by
  unfold jsHas
  rw [jsGet_createReverseMapPatch]
  by_cases h : jsHas p k = true <;> simp [jsHas] at h ⊢ <;> simp [h]

theorem foldSet_mem (t : JsMap) (R : Value → Prop) :
    ∀ (q r0 : JsMap),
      (∀ e ∈ q, R e.1) →
      (∀ e ∈ r0, R e.1 ∧ e.2 = origVal t e.1) →
      ∀ e ∈ q.foldl (fun r e2 => jsSet r e2.1 (origVal t e2.1)) r0,
        R e.1 ∧ e.2 = origVal t e.1 := by
  intro q
  induction q with
  | nil =>
    intro r0 hq hr e he
    exact hr e he
  | cons a rest ih =>
    intro r0 hq hr e he
    rw [List.foldl_cons] at he
    refine ih (jsSet r0 a.1 (origVal t a.1))
      (fun e2 he2 => hq e2 (List.mem_cons_of_mem _ he2)) ?_ e he
    intro e2 he2
    rcases mem_jsSet r0 a.1 (origVal t a.1) e2 he2 with h2 | h2
    · exact hr e2 h2
    · rw [h2]
      exact ⟨hq a (List.mem_cons_self a rest), rfl⟩

theorem mem_createReverseMapPatch (p t : JsMap) (e : Value × Value)
    (he : e ∈ createReverseMapPatch p t) :
    jsHas p e.1 = true ∧ e.2 = origVal t e.1 := by
  rw [createReverseMapPatch_eq] at he
  exact foldSet_mem t (fun k => jsHas p k = true) p []
    (fun e2 he2 => jsHas_of_mem p e2.1 e2.2 he2) (by simp) e he

/-- The cumulative effect of a list of patch entries on the value seen
at one key: the last matching entry wins, NO_ENTRY means removal. -/
def overwrite (q : JsMap) (k : Value) (o : Option Value) : Option Value :=
  q.foldl (fun acc e => if e.1 = k then (if e.2 = .noEntry then none else some e.2) else acc) o

theorem overwrite_not_has (q : JsMap) (k : Value) :
    ∀ o, jsHas q k = false → overwrite q k o = o := by
  induction q with
  | nil => intro o h; rfl
  | cons e rest ih =>
    intro o h
    obtain ⟨a, b⟩ := e
    by_cases hak : a = k
    · rw [jsHas_cons, if_pos hak] at h
      exact absurd h (by simp)
    · rw [jsHas_cons, if_neg hak] at h
      simp only [overwrite, List.foldl_cons, if_neg hak]
      exact ih o h

theorem overwrite_keyfun (t : JsMap) (q : JsMap) (k : Value) :
    ∀ o, (∀ e ∈ q, e.2 = origVal t e.1) →
      overwrite q k o
        = if jsHas q k then
            (if origVal t k = .noEntry then none else some (origVal t k))
          else o := by
  induction q with
  | nil =>
    intro o hfun
    simp [overwrite, jsHas, jsGet]
  | cons e rest ih =>
    intro o hfun
    obtain ⟨a, b⟩ := e
    have hb : b = origVal t a := hfun (a, b) (List.mem_cons_self _ _)
    simp only [overwrite, List.foldl_cons]
    have step : overwrite rest k (if a = k then (if b = .noEntry then none else some b) else o)
        = if jsHas rest k then
            (if origVal t k = .noEntry then none else some (origVal t k))
          else (if a = k then (if b = .noEntry then none else some b) else o) :=
      ih _ (fun e2 he2 => hfun e2 (List.mem_cons_of_mem _ he2))
    rw [show (List.foldl
        (fun acc e => if e.1 = k then (if e.2 = .noEntry then none else some e.2) else acc)
        (if a = k then (if b = .noEntry then none else some b) else o) rest)
      = overwrite rest k (if a = k then (if b = .noEntry then none else some b) else o) from rfl]
    rw [step, jsHas_cons]
    by_cases hak : a = k
    · subst hak
      by_cases hrest : jsHas rest a = true
      · simp [hrest]
      · simp only [Bool.not_eq_true] at hrest
        simp [hrest, hb]
    · rw [if_neg hak, if_neg hak]

theorem getKeyUsedByMap_unaliased (env : Env) (t : JsMap) (a : Value)
    (h1 : tryGetProxy env a = none) (h2 : asOriginal env a = a) :
    getKeyUsedByMap env t a = if jsHas t a then some a else none := by
  unfold getKeyUsedByMap
  simp [tryGetProxyD, h1, h2]

theorem undoMapEntry_unaliased (env : Env) (t : JsMap) (a b k : Value)
    (h1 : tryGetProxy env a = none) (h2 : asOriginal env a = a) :
    jsGet (undoMapEntry env t a b) k
      = if a = k then (if b = .noEntry then none else some b) else jsGet t k := by
  by_cases hb : b = .noEntry
  · rw [undoMapEntry, if_pos hb, jsGet_delete]
    by_cases hak : a = k
    · simp [hak, hb]
    · simp [hak, Ne.symm hak, hb]
  · have hentry : undoMapEntry env t a b = jsSet t a b := by
      rw [undoMapEntry, if_neg hb, getKeyUsedByMap_unaliased env t a h1 h2]
      by_cases hhas : jsHas t a = true
      · rw [if_pos hhas]
        dsimp only
        rw [if_pos rfl]
      · rw [if_neg hhas]
    rw [hentry, jsGet_set]
    by_cases hak : a = k
    · simp [hak, hb]
    · simp [hak, Ne.symm hak]

theorem undoMapPatch_unaliased (env : Env) (p : JsMap) :
    (∀ e ∈ p, tryGetProxy env e.1 = none ∧ asOriginal env e.1 = e.1) →
    ∀ t k, jsGet (undoMapPatch env p t) k = overwrite p k (jsGet t k) := by
  induction p with
  | nil =>
    intro h t k
    rfl
  | cons e rest ih =>
    intro h t k
    obtain ⟨a, b⟩ := e
    have ha := h (a, b) (List.mem_cons_self _ _)
    have hstep : undoMapPatch env ((a, b) :: rest) t
        = undoMapPatch env rest (undoMapEntry env t a b) := rfl
    rw [hstep, ih (fun e2 he2 => h e2 (List.mem_cons_of_mem _ he2))]
    have hover : overwrite ((a, b) :: rest) k (jsGet t k)
        = overwrite rest k
            (if a = k then (if b = .noEntry then none else some b) else jsGet t k) := rfl
    rw [hover, undoMapEntry_unaliased env t a b k ha.1 ha.2]

/-- C3 (amended): for a map patch all of whose keys are unaliased (no
key has a registered tracking view and none is itself a view of
another object) against a target holding no NO_ENTRY value, computing
r = createReversePatch(p) before undoing and then applying undoPatch(p)
followed by undoPatch(r) restores the target extensionally to the state
it had immediately after the original mutation; and, unconditionally in
the registry, createReversePatch(p) maps every key present in p to the
target's current raw value there, NO_ENTRY when the raw key is absent. -/
theorem reversePatchLaw_unaliased (env : Env) (p t : JsMap)
    (hkeys : ∀ e ∈ p, tryGetProxy env e.1 = none ∧ asOriginal env e.1 = e.1)
    (hne : ∀ e ∈ t, e.2 ≠ Value.noEntry) :
    (∀ k, jsGet (undoMapPatch env (createReverseMapPatch p t) (undoMapPatch env p t)) k
        = jsGet t k)
    ∧ (∀ e ∈ p, jsGet (createReverseMapPatch p t) e.1 = some (origVal t e.1)) := by
  have hrkeys : ∀ e ∈ createReverseMapPatch p t,
      tryGetProxy env e.1 = none ∧ asOriginal env e.1 = e.1 := by
    intro e he
    have hmem := mem_createReverseMapPatch p t e he
    obtain ⟨v, hv⟩ := jsHas_exists_mem p e.1 hmem.1
    exact hkeys (e.1, v) hv
  have hrfun : ∀ e ∈ createReverseMapPatch p t, e.2 = origVal t e.1 :=
    fun e he => (mem_createReverseMapPatch p t e he).2
  constructor
  · intro k
    rw [undoMapPatch_unaliased env (createReverseMapPatch p t) hrkeys (undoMapPatch env p t) k,
      undoMapPatch_unaliased env p hkeys t k,
      overwrite_keyfun t (createReverseMapPatch p t) k _ hrfun,
      jsHas_createReverseMapPatch]
    by_cases hp : jsHas p k = true
    · rw [if_pos hp]
      by_cases ho : origVal t k = .noEntry
      · rw [if_pos ho]
        have hth : jsHas t k = false := by
          by_cases hh : jsHas t k = true
          · exfalso
            have hg := jsGet_eq_some_of_has t k hh
            apply hne (k, jsGetD t k) (jsGet_mem t k (jsGetD t k) hg)
            unfold origVal at ho
            rw [if_pos hh] at ho
            exact ho
          · exact Bool.eq_false_iff.mpr hh
        rw [jsGet_none_of_not_has t k hth]
      · rw [if_neg ho]
        have hh : jsHas t k = true := by
          by_cases hh : jsHas t k = true
          · exact hh
          · exfalso
            apply ho
            unfold origVal
            rw [if_neg hh]
        have : origVal t k = jsGetD t k := by
          unfold origVal
          rw [if_pos hh]
        rw [this]
        exact (jsGet_eq_some_of_has t k hh).symm
    · rw [if_neg hp]
      exact overwrite_not_has p k (jsGet t k) (Bool.eq_false_iff.mpr hp)
  · intro e he
    rw [jsGet_createReverseMapPatch p t e.1,
      if_pos (jsHas_of_mem p e.1 e.2 he)]

/-- Aliasing environment for the reverse-patch counterexample:
container obj 0 has tracking view obj 1. -/
def c3Env : Env := ⟨[(0, .obj 1), (1, .obj 1)], [(1, .obj 0)], [], 2⟩

/-- The tracked dictionary before the scope: one entry keyed by the raw
container obj 0. -/
def c3St : DimmerMapState := ⟨7, [(.obj 0, .vstr "w")], []⟩

/-- The recorded mutation: delete through the raw key, then set through
the tracking view, re-keying the surviving entry to the view. -/
def c3Del : Bool × DimmerMapState × Env := dimmerDelete c3Env c3St (.obj 0)

def c3Set : DimmerMapState × Env := dimmerSet c3Del.2.2 c3Del.2.1 (.obj 1) (.vstr "v")

/-- The patch this scope commits: it records the pre-image under the
raw key obj 0. -/
def c3Patch : JsMap := (commitDelta c3Set.1).1

/-- The target immediately after the mutation: the entry now lives
under the tracking view obj 1. -/
def c3T : JsMap := (commitDelta c3Set.1).2.target

def c3R : JsMap := createReverseMapPatch c3Patch c3T

/-- C3 counterexample: for the committed patch of the recorded scope
delete(c); set(view of c, v), the reverse patch computed before undoing
maps the patch key to NO_ENTRY (the raw lookup misses the entry stored
under the view), undoPatch(p) correctly restores the pre-scope state,
but undoPatch(r) then empties the map instead of restoring the state
immediately after the mutation: the round trip loses the entry, so the
reverse-patch law fails for aliased keys. -/
theorem reversePatchLaw_cex :
    c3Patch = [(.obj 0, .vstr "w")]
    ∧ c3T = [(.obj 1, .vstr "v")]
    ∧ c3R = [(.obj 0, .noEntry)]
    ∧ undoMapPatch c3Set.2 c3Patch c3T = [(.obj 0, .vstr "w")]
    ∧ undoMapPatch c3Set.2 c3R (undoMapPatch c3Set.2 c3Patch c3T) = []
    ∧ jsGet (undoMapPatch c3Set.2 c3R (undoMapPatch c3Set.2 c3Patch c3T)) (.obj 1)
        ≠ jsGet c3T (.obj 1) := by
  refine ⟨by decide, by decide, by decide, by decide, by decide, by decide⟩

def c3WP : JsMap := [(.vstr "k", .vstr "old")]

def c3WT : JsMap := [(.vstr "k", .vstr "new")]

/-- C3 witness: the amended law applied to a concrete unaliased patch
and target, checked at the patch key. -/
theorem reversePatchLaw_unaliased_witness :
    jsGet (undoMapPatch envEmpty (createReverseMapPatch c3WP c3WT)
        (undoMapPatch envEmpty c3WP c3WT)) (.vstr "k")
      = jsGet c3WT (.vstr "k")
    ∧ jsGet (createReverseMapPatch c3WP c3WT) (.vstr "k")
      = some (origVal c3WT (.vstr "k")) := by
  have happ := reversePatchLaw_unaliased envEmpty c3WP c3WT (by decide) (by decide)
  exact ⟨happ.1 (.vstr "k"), happ.2 (.vstr "k", .vstr "old") (by decide)⟩
